import Mathlib

/-!
Verification of the session-and-security subsystem of a wallet TUI.

Shallow embedding conventions:
* Go `time.Time` and `time.Duration` are modelled as `Nat` nanoseconds;
  `time.Now()` becomes an explicit `now : Nat` argument.
* Go maps (`map[string]T`) are modelled as association lists with
  first-occurrence lookup; map assignment replaces the first binding,
  `delete` removes it.
* Fallible Go functions returning `(T, error)` become `Except String T`.
* Randomness (session tokens, nonces) is passed in explicitly.
-/

namespace VeWallet

def millisecond : Nat := 1000000

def second : Nat := 1000 * millisecond

def minute : Nat := 60 * second

def hour : Nat := 60 * minute

/-- Lookup in an association list, first binding wins (Go map read). -/
def lookupA {α : Type} : List (String × α) → String → Option α
  | [], _ => none
  | (k2, v) :: rest, k => if k2 = k then some v else lookupA rest k

/-- Map assignment: replace the first binding of `k`, or append. -/
def insertA {α : Type} : List (String × α) → String → α → List (String × α)
  | [], k, v => [(k, v)]
  | (k2, v2) :: rest, k, v =>
      if k2 = k then (k, v) :: rest else (k2, v2) :: insertA rest k v

/-- Map deletion: remove the first binding of `k`. -/
def eraseA {α : Type} : List (String × α) → String → List (String × α)
  | [], _ => []
  | (k2, v) :: rest, k => if k2 = k then rest else (k2, v) :: eraseA rest k

/-! ## Attempt tracker (internal/security/security_manager.go) -/

structure AttemptRecord where
  count : Nat
  lastAttempt : Nat
  lockedUntil : Nat
deriving Repr, DecidableEq

structure AttemptTrackerState where
  attempts : List (String × AttemptRecord)
  lockoutDuration : Nat
  maxAttempts : Nat
deriving Repr, DecidableEq

/-- Tracker state built by NewSecurityManager: 15 min lockout field, 3 attempts. -/
def newAttemptTracker : AttemptTrackerState :=
  { attempts := [], lockoutDuration := 15 * minute, maxAttempts := 3 }

/-- Escalating lockout schedule (calculateLockoutDuration). -/
def calculateLockoutDuration (attemptCount : Nat) : Nat :=
  if attemptCount ≤ 3 then 1 * minute
  else if attemptCount ≤ 5 then 5 * minute
  else if attemptCount ≤ 7 then 15 * minute
  else 1 * hour

/-- RecordFailedAttempt: create the record if absent, bump the count, and once
the count reaches maxAttempts set lockedUntil from the escalation schedule. -/
def RecordFailedAttempt (t : AttemptTrackerState) (walletID : String) (now : Nat) :
    AttemptTrackerState :=
  let record := (lookupA t.attempts walletID).getD
    { count := 0, lastAttempt := now, lockedUntil := 0 }
  let record := { record with count := record.count + 1, lastAttempt := now }
  let record :=
    if t.maxAttempts ≤ record.count then
      { record with lockedUntil := now + calculateLockoutDuration record.count }
    else record
  { t with attempts := insertA t.attempts walletID record }

/-- RecordSuccessfulAttempt: delete the record unconditionally. -/
def RecordSuccessfulAttempt (t : AttemptTrackerState) (walletID : String) :
    AttemptTrackerState :=
  { t with attempts := eraseA t.attempts walletID }

/-- IsAccountLocked: true iff a record exists and now is before lockedUntil. -/
def IsAccountLocked (t : AttemptTrackerState) (walletID : String) (now : Nat) : Bool :=
  match lookupA t.attempts walletID with
  | none => false
  | some record => decide (now < record.lockedUntil)

/-- GetRemainingLockoutTime: time until lockedUntil, clamped at zero. -/
def GetRemainingLockoutTime (t : AttemptTrackerState) (walletID : String) (now : Nat) :
    Int :=
  match lookupA t.attempts walletID with
  | none => 0
  | some record =>
      let remaining : Int := (record.lockedUntil : Int) - (now : Int)
      if remaining < 0 then 0 else remaining

/-- GetFailedAttemptCount. -/
def GetFailedAttemptCount (t : AttemptTrackerState) (walletID : String) : Nat :=
  match lookupA t.attempts walletID with
  | none => 0
  | some record => record.count

/-- UpdateAttemptTrackerConfig. -/
def UpdateAttemptTrackerConfig (t : AttemptTrackerState) (maxAttempts : Nat)
    (lockoutDuration : Nat) : AttemptTrackerState :=
  { t with maxAttempts := maxAttempts, lockoutDuration := lockoutDuration }

/-! ## Session registry data model (session manager source) -/

/-- Unlocked wallet reference held by a session. The private key is modelled
by its secret scalar D; `none` is a nil PrivateKey pointer. -/
structure Wallet where
  id : String
  privateKey : Option Nat
  mnemonic : String
deriving Repr, DecidableEq

structure WalletSession where
  walletID : String
  unlockedWallet : Option Wallet
  createdAt : Nat
  lastActivity : Nat
  expiresAt : Nat
  sessionToken : String
  isActive : Bool
deriving Repr, DecidableEq

structure SessionConfig where
  defaultTimeout : Nat
  maxSessions : Nat
  cleanupInterval : Nat
  inactivityLimit : Nat
  requirePassword : Bool
deriving Repr, DecidableEq

/-- Config installed by NewSessionManager. -/
def defaultSessionConfig : SessionConfig :=
  { defaultTimeout := 5 * minute, maxSessions := 5, cleanupInterval := 30 * second,
    inactivityLimit := 5 * minute, requirePassword := true }

structure SessionManagerState where
  sessions : List (String × WalletSession)
  config : SessionConfig
deriving Repr, DecidableEq

def newSessionManager : SessionManagerState :=
  { sessions := [], config := defaultSessionConfig }

/-- CreateSession: reject when the registry already holds maxSessions entries,
otherwise store a fresh session expiring at now + defaultTimeout. The random
token is passed in explicitly. -/
def CreateSession (st : SessionManagerState) (wallet : Wallet) (token : String)
    (now : Nat) : Except String (WalletSession × SessionManagerState) :=
  if st.config.maxSessions ≤ st.sessions.length then
    .error "maximum number of sessions reached"
  else
    let session : WalletSession :=
      { walletID := wallet.id, unlockedWallet := some wallet, createdAt := now,
        lastActivity := now, expiresAt := now + st.config.defaultTimeout,
        sessionToken := token, isActive := true }
    .ok (session, { st with sessions := insertA st.sessions wallet.id session })

/-- GetSession: found only if present, active, and now is not past expiry. -/
def GetSession (st : SessionManagerState) (walletID : String) (now : Nat) :
    Option WalletSession :=
  match lookupA st.sessions walletID with
  | none => none
  | some session =>
      if session.isActive ∧ now ≤ session.expiresAt then some session else none

/-- ValidateSession: token check behind the same liveness checks as GetSession. -/
def ValidateSession (st : SessionManagerState) (walletID token : String) (now : Nat) :
    Bool :=
  match lookupA st.sessions walletID with
  | none => false
  | some session =>
      if ¬ session.isActive then false
      else if session.expiresAt < now then false
      else session.sessionToken == token

/-- ExtendSession: reset lastActivity and push expiry to now + defaultTimeout. -/
def ExtendSession (st : SessionManagerState) (walletID : String) (now : Nat) :
    Except String SessionManagerState :=
  match lookupA st.sessions walletID with
  | none => .error "session not found or inactive"
  | some session =>
      if ¬ session.isActive then .error "session not found or inactive"
      else
        let extended :=
          { session with lastActivity := now,
                         expiresAt := now + st.config.defaultTimeout }
        .ok { st with sessions := insertA st.sessions walletID extended }

/-- clearSensitiveData: zero the private key scalar, drop the key, clear the
mnemonic (all guarded by the wallet holding a non-nil private key), then clear
the session token. -/
def clearSensitiveData (session : WalletSession) : WalletSession :=
  let session :=
    match session.unlockedWallet with
    | some w =>
        if w.privateKey.isSome then
          let cleared := { w with privateKey := none, mnemonic := "" }
          { session with unlockedWallet := some cleared }
        else session
    | none => session
  { session with sessionToken := "" }

/-- CloseSession: mark inactive, clear sensitive data, delete the entry. The
cleared session value is returned as well, mirroring the shared pointer the Go
caller still holds. -/
def CloseSession (st : SessionManagerState) (walletID : String) :
    Except String (WalletSession × SessionManagerState) :=
  match lookupA st.sessions walletID with
  | none => .error "session not found"
  | some session =>
      let cleared := clearSensitiveData { session with isActive := false }
      .ok (cleared, { st with sessions := eraseA st.sessions walletID })

/-- UpdateConfig replaces the whole config. -/
def UpdateConfig (st : SessionManagerState) (config : SessionConfig) :
    SessionManagerState :=
  { st with config := config }

/-- cleanupExpiredSessions: drop every entry whose expiry has passed. -/
def cleanupExpiredSessions (st : SessionManagerState) (now : Nat) :
    SessionManagerState :=
  { st with sessions := st.sessions.filter (fun p => ¬ p.2.expiresAt < now) }

/-! ## Security manager composition -/

structure SecurityManagerState where
  sessionManager : SessionManagerState
  attemptTracker : AttemptTrackerState
deriving Repr, DecidableEq

def newSecurityManager : SecurityManagerState :=
  { sessionManager := newSessionManager, attemptTracker := newAttemptTracker }

inductive SecurityLevel where
  | low
  | medium
  | high
  | max
deriving Repr, DecidableEq

/-- ApplySecurityLevel: replace the session config and the attempt-tracker
thresholds with the preset matched to the level. -/
def ApplySecurityLevel (sm : SecurityManagerState) (level : SecurityLevel) :
    SecurityManagerState :=
  match level with
  | .low =>
      { sessionManager := UpdateConfig sm.sessionManager
          { defaultTimeout := 30 * minute, maxSessions := 10,
            cleanupInterval := 60 * second, inactivityLimit := 30 * minute,
            requirePassword := false },
        attemptTracker := UpdateAttemptTrackerConfig sm.attemptTracker 5 (1 * minute) }
  | .medium =>
      { sessionManager := UpdateConfig sm.sessionManager
          { defaultTimeout := 15 * minute, maxSessions := 5,
            cleanupInterval := 30 * second, inactivityLimit := 15 * minute,
            requirePassword := true },
        attemptTracker := UpdateAttemptTrackerConfig sm.attemptTracker 3 (5 * minute) }
  | .high =>
      { sessionManager := UpdateConfig sm.sessionManager
          { defaultTimeout := 5 * minute, maxSessions := 3,
            cleanupInterval := 15 * second, inactivityLimit := 5 * minute,
            requirePassword := true },
        attemptTracker := UpdateAttemptTrackerConfig sm.attemptTracker 3 (15 * minute) }
  | .max =>
      { sessionManager := UpdateConfig sm.sessionManager
          { defaultTimeout := 2 * minute, maxSessions := 1,
            cleanupInterval := 10 * second, inactivityLimit := 2 * minute,
            requirePassword := true },
        attemptTracker := UpdateAttemptTrackerConfig sm.attemptTracker 1 (1 * hour) }

/-! ## Session tokens (generateSessionToken / ValidateSessionToken) -/

/-- Lowercase hex alphabet used by hex.EncodeToString. -/
def hexDigits : List Char := "0123456789abcdef".data

def hexDigit (n : Nat) : Char := hexDigits.getD n '0'

/-- Two hex characters for one byte: high nibble then low nibble. -/
def encodeByte (b : Nat) : List Char := [hexDigit (b / 16), hexDigit (b % 16)]

/-- generateSessionToken: hex encoding of the random bytes (the randomness is
the explicit argument; the source draws 32 bytes from crypto/rand). -/
def generateSessionToken (bytes : List Nat) : String :=
  String.mk ((bytes.map encodeByte).join)

/-- Characters accepted by hex.DecodeString. -/
def isHexChar (c : Char) : Bool :=
  decide (('0' ≤ c ∧ c ≤ '9') ∨ ('a' ≤ c ∧ c ≤ 'f') ∨ ('A' ≤ c ∧ c ≤ 'F'))

/-- hex.DecodeString succeeds iff every character is hex and the length is even. -/
def hexDecodeOk (s : String) : Bool :=
  s.data.all isHexChar && s.length % 2 == 0

/-- ValidateSessionToken: length exactly 64 and hex-decodable. -/
def ValidateSessionToken (token : String) : Bool :=
  if token.length ≠ 64 then false
  else hexDecodeOk token

/-- Well-formedness of a Go map image: association-list keys are distinct. -/
def keysNodup {α : Type} (m : List (String × α)) : Prop :=
  (m.map Prod.fst).Nodup

/-! ## Registry operation traces -/

/-- One registry operation; timed operations carry the wall-clock instant at
which they run (the source reads time.Now() inside each). -/
inductive RegistryOp where
  | create (wallet : Wallet) (token : String) (t : Nat)
  | extend (id : String) (t : Nat)
  | close (id : String)
  | updateConfig (c : SessionConfig)
  | cleanup (t : Nat)
deriving Repr, DecidableEq

/-- Apply one operation; a failing operation leaves the registry unchanged. -/
def applyOp (st : SessionManagerState) (op : RegistryOp) : SessionManagerState :=
  match op with
  | .create w tok t =>
      match CreateSession st w tok t with
      | .ok (_, st2) => st2
      | .error _ => st
  | .extend id t =>
      match ExtendSession st id t with
      | .ok st2 => st2
      | .error _ => st
  | .close id =>
      match CloseSession st id with
      | .ok (_, st2) => st2
      | .error _ => st
  | .updateConfig c => UpdateConfig st c
  | .cleanup t => cleanupExpiredSessions st t

def runOps (st : SessionManagerState) : List RegistryOp → SessionManagerState
  | [] => st
  | op :: rest => runOps (applyOp st op) rest

/-- The wall-clock instant of a timed operation. -/
def opTime : RegistryOp → Option Nat
  | .create _ _ t => some t
  | .extend _ t => some t
  | .cleanup t => some t
  | _ => none

/-- Wall-clock monotonicity of a trace: each timed operation runs no earlier
than the previous one. -/
def wellTimedFrom (clock : Nat) : List RegistryOp → Bool
  | [] => true
  | op :: rest =>
      match opTime op with
      | some t => decide (clock ≤ t) && wellTimedFrom t rest
      | none => wellTimedFrom clock rest

/-- The wall-clock instant after the last timed operation of a trace. -/
def finalClock (clock : Nat) : List RegistryOp → Nat
  | [] => clock
  | op :: rest => finalClock ((opTime op).getD clock) rest

def isCreateOrClose : RegistryOp → Bool
  | .create _ _ _ => true
  | .close _ => true
  | _ => false

/-- Sessions never dated in the future and never expiring before creation. -/
def timeInv (st : SessionManagerState) (clock : Nat) : Prop :=
  ∀ p ∈ st.sessions, p.2.createdAt ≤ p.2.lastActivity ∧ p.2.lastActivity ≤ clock ∧
    p.2.createdAt ≤ p.2.expiresAt

/-- Sliding-expiry shape: every expiry equals lastActivity + defaultTimeout. -/
def slidingInv (st : SessionManagerState) : Prop :=
  ∀ p ∈ st.sessions, p.2.expiresAt = p.2.lastActivity + st.config.defaultTimeout

/-! ## Activity monitor (internal/security/activity_monitor.go) -/

structure SessionActivity where
  walletID : String
  action : String
  timestamp : Nat
  viewName : String
deriving Repr, DecidableEq

structure ActivityPattern where
  walletID : String
  viewTransitions : List String
  actionFrequency : List (String × Nat)
  timePattern : List Nat
  riskScore : Nat
deriving Repr, DecidableEq

/-- GetRecentActivity: entries of this identity strictly after now − duration
(the cutoff subtraction is over the integers, as in Go's time arithmetic). -/
def GetRecentActivity (log : List SessionActivity) (walletID : String)
    (duration now : Nat) : List SessionActivity :=
  log.filter (fun a =>
    a.walletID == walletID && decide ((now : Int) - (duration : Int) < (a.timestamp : Int)))

/-- One Go map increment: viewCount[key]++. -/
def bumpFreq (m : List (String × Nat)) (key : String) : List (String × Nat) :=
  insertA m key ((lookupA m key).getD 0 + 1)

/-- Go map read with zero default. -/
def freqGet (m : List (String × Nat)) (key : String) : Nat :=
  (lookupA m key).getD 0

/-- Adjacent pairs of the time pattern less than 500 ms apart (a non-positive
difference also counts, as in Go's signed Duration comparison). -/
def countRapid : List Nat → Nat
  | [] => 0
  | [_] => 0
  | t1 :: t2 :: rest =>
      (if (t2 : Int) - (t1 : Int) < ((500 * millisecond : Nat) : Int) then 1 else 0) +
        countRapid (t2 :: rest)

/-- The repeated-views loop: walk the transitions keeping per-view running
counts, adding one each time a view's running count exceeds 10. -/
def countRepeatedViews : List String → List (String × Nat) → Nat
  | [], _ => 0
  | v :: rest, counts =>
      let c := (lookupA counts v).getD 0 + 1
      (if 10 < c then 1 else 0) + countRepeatedViews rest (insertA counts v c)

/-- calculateRiskScore: the weighted sum of the five heuristics. -/
def calculateRiskScore (pattern : ActivityPattern) : Nat :=
  (if 50 < pattern.viewTransitions.length then 5 else 0) +
  (if 10 < countRapid pattern.timePattern then 3 else 0) +
  (if 5 < freqGet pattern.actionFrequency "password_attempt" then 8 else 0) +
  (if 3 < freqGet pattern.actionFrequency "failed_transaction" then 4 else 0) +
  (if 2 < countRepeatedViews pattern.viewTransitions [] then 2 else 0)

/-- analyzeActivityPattern: build the pattern from the identity's last hour of
activity and score it. -/
def analyzeActivityPattern (log : List SessionActivity) (walletID : String)
    (now : Nat) : ActivityPattern :=
  let recent := GetRecentActivity log walletID (1 * hour) now
  let pattern0 : ActivityPattern :=
    { walletID := walletID,
      viewTransitions := recent.map (fun a => a.viewName),
      actionFrequency := recent.foldl (fun m a => bumpFreq m a.action) [],
      timePattern := recent.map (fun a => a.timestamp),
      riskScore := 0 }
  { pattern0 with riskScore := calculateRiskScore pattern0 }

/-- Occurrences of one view in the transition list. -/
def countView (l : List String) (v : String) : Nat :=
  (l.filter (fun x => x == v)).length

/-- The risk formula exactly as the claim words it (for the refinement
comparison): the last term fires as soon as any single view is revisited more
than 10 times. -/
def specRiskScore (pattern : ActivityPattern) : Nat :=
  (if 50 < pattern.viewTransitions.length then 5 else 0) +
  (if 10 < countRapid pattern.timePattern then 3 else 0) +
  (if 5 < freqGet pattern.actionFrequency "password_attempt" then 8 else 0) +
  (if 3 < freqGet pattern.actionFrequency "failed_transaction" then 4 else 0) +
  (if pattern.viewTransitions.any (fun v => 10 < countView pattern.viewTransitions v)
    then 2 else 0)

/-- The risk formula with the last term amended to what the code computes:
+2 only when more than two visit-events land beyond the tenth visit to their
view, i.e. when the total excess Σ over distinct views of (count − 10) exceeds
two. -/
def amendedRiskScore (pattern : ActivityPattern) : Nat :=
  (if 50 < pattern.viewTransitions.length then 5 else 0) +
  (if 10 < countRapid pattern.timePattern then 3 else 0) +
  (if 5 < freqGet pattern.actionFrequency "password_attempt" then 8 else 0) +
  (if 3 < freqGet pattern.actionFrequency "failed_transaction" then 4 else 0) +
  (if 2 < (pattern.viewTransitions.dedup.map
      (fun v => countView pattern.viewTransitions v - 10)).sum then 2 else 0)

/-! ## Session store (persistence) -/

/-- The plaintext persisted per session: identity, last activity, active flag
— never the secret or derivation material. -/
structure SessionData where
  walletID : String
  lastActivity : Nat
  isActive : Bool
deriving Repr, DecidableEq

structure PersistedSession where
  walletID : String
  sessionToken : String
  createdAt : Nat
  expiresAt : Nat
  encryptedData : List Nat
  checksum : String
deriving Repr, DecidableEq

/-- Abstract model of the store's crypto stack: JSON serialization of
SessionData, the storage.Encrypt/Decrypt pipeline (with the per-save
randomness held fixed, hence deterministic), and the SHA-256 hex checksum.
Their round-trip and collision facts enter theorems as hypotheses. -/
structure CryptoModel where
  serialize : SessionData → List Nat
  deserialize : List Nat → Option SessionData
  encrypt : List Nat → List Nat
  decrypt : List Nat → Option (List Nat)
  hash : List Nat → String

def sessionDataOf (s : WalletSession) : SessionData :=
  { walletID := s.walletID, lastActivity := s.lastActivity, isActive := s.isActive }

/-- One PersistedSession as assembled by SaveSessions. -/
def persistOf (cm : CryptoModel) (s : WalletSession) : PersistedSession :=
  let enc := cm.encrypt (cm.serialize (sessionDataOf s))
  { walletID := s.walletID, sessionToken := s.sessionToken,
    createdAt := s.createdAt, expiresAt := s.expiresAt,
    encryptedData := enc, checksum := cm.hash enc }

/-- SaveSessions: persist every active, non-expired session. -/
def SaveSessions (cm : CryptoModel) (sessions : List (String × WalletSession))
    (now : Nat) : List PersistedSession :=
  (sessions.filter (fun p => p.2.isActive && !decide (p.2.expiresAt < now))).map
    (fun p => persistOf cm p.2)

/-- ValidateSessionIntegrity: the stored checksum matches the ciphertext. -/
def ValidateSessionIntegrity (cm : CryptoModel) (ps : PersistedSession) : Bool :=
  cm.hash ps.encryptedData == ps.checksum

/-- One LoadSessions iteration: skip expired, tampered or undecryptable
records, otherwise rebuild the session with an empty secret reference. -/
def loadOne (cm : CryptoModel) (now : Nat)
    (acc : List (String × WalletSession)) (ps : PersistedSession) :
    List (String × WalletSession) :=
  if ps.expiresAt < now then acc
  else if ¬ ValidateSessionIntegrity cm ps then acc
  else
    match cm.decrypt ps.encryptedData with
    | none => acc
    | some plain =>
        match cm.deserialize plain with
        | none => acc
        | some data =>
            insertA acc ps.walletID
              ⟨ps.walletID, none, ps.createdAt, data.lastActivity, ps.expiresAt,
                ps.sessionToken, data.isActive⟩

def LoadSessions (cm : CryptoModel) (persisted : List PersistedSession)
    (now : Nat) : List (String × WalletSession) :=
  persisted.foldl (loadOne cm now) []

/-- A session with its unlocked-secret reference dropped (for comparing
registries that differ only in secrets). -/
def eraseSecret (s : WalletSession) : WalletSession :=
  { s with unlockedWallet := none }

/-- Number of positions at which two byte strings differ. -/
def diffCount (l1 l2 : List Nat) : Nat :=
  (List.zip l1 l2).countP (fun p => decide (p.1 ≠ p.2))

/-- A concrete sound crypto model used to instantiate store theorems on
concrete inputs (round-trips hold at the sessions those instances use). -/
def cmWitness : CryptoModel where
  serialize d := [d.lastActivity]
  deserialize l :=
    match l with
    | [a] => some ⟨"w", a, true⟩
    | _ => none
  encrypt l := 0 :: l
  decrypt l :=
    match l with
    | [] => none
    | _ :: r => some r
  hash l := if l.sum = 0 then "z" else "nz"

/-! ## Association-list lemmas -/

theorem lookupA_insertA_self {α : Type} (m : List (String × α)) (k : String) (v : α) :
    lookupA (insertA m k v) k = some v := by
  induction m with
  | nil => simp [insertA, lookupA]
  | cons p rest ih =>
      obtain ⟨k2, v2⟩ := p
      by_cases h : k2 = k
      · simp [insertA, lookupA, h]
      · simp [insertA, lookupA, h, ih]

theorem lookupA_insertA_ne {α : Type} (m : List (String × α)) (k k2 : String) (v : α)
    (h : k ≠ k2) : lookupA (insertA m k v) k2 = lookupA m k2 := by
  induction m with
  | nil => simp [insertA, lookupA, h]
  | cons p rest ih =>
      obtain ⟨k3, v3⟩ := p
      by_cases h3 : k3 = k
      · simp [insertA, lookupA, h3, h]
      · simp only [insertA, h3, if_false]
        by_cases h4 : k3 = k2 <;> simp [lookupA, h4, ih]

theorem insertA_insertA_self {α : Type} (m : List (String × α)) (k : String) (v v2 : α) :
    insertA (insertA m k v) k v2 = insertA m k v2 := by
  induction m with
  | nil => simp [insertA]
  | cons p rest ih =>
      obtain ⟨k3, v3⟩ := p
      by_cases h : k3 = k
      · simp [insertA, h]
      · simp [insertA, h, ih]

theorem insertA_fresh {α : Type} (m : List (String × α)) (k : String) (v : α)
    (h : lookupA m k = none) : insertA m k v = m ++ [(k, v)] := by
  induction m with
  | nil => simp [insertA]
  | cons p rest ih =>
      obtain ⟨k2, v2⟩ := p
      by_cases h2 : k2 = k
      · simp [lookupA, h2] at h
      · simp only [lookupA, h2, if_false] at h
        simp [insertA, h2, ih h]

theorem eraseA_insertA_fresh {α : Type} (m : List (String × α)) (k : String) (v : α)
    (h : lookupA m k = none) : eraseA (insertA m k v) k = m := by
  induction m with
  | nil => simp [insertA, eraseA]
  | cons p rest ih =>
      obtain ⟨k2, v2⟩ := p
      by_cases h2 : k2 = k
      · simp [lookupA, h2] at h
      · simp only [lookupA, h2, if_false] at h
        simp [insertA, eraseA, h2, ih h]

theorem length_insertA {α : Type} (m : List (String × α)) (k : String) (v : α) :
    (insertA m k v).length = m.length ∨ (insertA m k v).length = m.length + 1 := by
  induction m with
  | nil => simp [insertA]
  | cons p rest ih =>
      obtain ⟨k2, v2⟩ := p
      by_cases h : k2 = k
      · simp [insertA, h]
      · rcases ih with ih | ih <;> simp [insertA, h, ih] <;> omega

theorem length_eraseA_le {α : Type} (m : List (String × α)) (k : String) :
    (eraseA m k).length ≤ m.length := by
  induction m with
  | nil => simp [eraseA]
  | cons p rest ih =>
      obtain ⟨k2, v2⟩ := p
      by_cases h : k2 = k <;> simp [eraseA, h] <;> omega

/-! ## Attempt-tracker claims -/

theorem minute_pos : 0 < minute := by norm_num [minute, second, millisecond]

theorem RecordFailedAttempt_maxAttempts (t : AttemptTrackerState) (id : String)
    (now : Nat) : (RecordFailedAttempt t id now).maxAttempts = t.maxAttempts := by
  simp [RecordFailedAttempt]

/-- C1 (counterexample): after ApplySecurityLevel(max) on a fresh security
manager, a single failed attempt locks the account, but the remaining lockout
is 1 minute — not approximately 1 hour as claimed. -/
theorem C1_max_level_lockout_counterexample :
    IsAccountLocked
      (RecordFailedAttempt (ApplySecurityLevel newSecurityManager .max).attemptTracker
        "W" 0) "W" 0 = true ∧
    GetRemainingLockoutTime
      (RecordFailedAttempt (ApplySecurityLevel newSecurityManager .max).attemptTracker
        "W" 0) "W" 0 = (minute : Int) ∧
    (minute : Int) ≠ (hour : Int) := by
  refine ⟨by decide, by decide, by decide⟩

/-- C1 (amended): ApplySecurityLevel(max) replaces the tracker thresholds with
the preset maxAttempts = 1 and lockoutDuration = 1 hour and replaces the session
config with the max preset; a single RecordFailedAttempt for an identity with no
prior record locks the account immediately, but the remaining lockout is
1 minute (the first step of the escalation schedule, which ignores the
configured lockoutDuration), not 1 hour. -/
theorem C1_max_level_single_failure (sm : SecurityManagerState) (id : String) (t : Nat)
    (hnone : lookupA sm.attemptTracker.attempts id = none) :
    (ApplySecurityLevel sm .max).attemptTracker.maxAttempts = 1 ∧
    (ApplySecurityLevel sm .max).attemptTracker.lockoutDuration = 1 * hour ∧
    (ApplySecurityLevel sm .max).sessionManager.config =
      { defaultTimeout := 2 * minute, maxSessions := 1, cleanupInterval := 10 * second,
        inactivityLimit := 2 * minute, requirePassword := true } ∧
    IsAccountLocked
      (RecordFailedAttempt (ApplySecurityLevel sm .max).attemptTracker id t) id t
      = true ∧
    GetRemainingLockoutTime
      (RecordFailedAttempt (ApplySecurityLevel sm .max).attemptTracker id t) id t
      = (minute : Int) := by
  have htr : (ApplySecurityLevel sm .max).attemptTracker =
      { sm.attemptTracker with maxAttempts := 1, lockoutDuration := 1 * hour } := by
    simp [ApplySecurityLevel, UpdateAttemptTrackerConfig]
  have hrec : RecordFailedAttempt (ApplySecurityLevel sm .max).attemptTracker id t =
      { sm.attemptTracker with
        attempts := insertA sm.attemptTracker.attempts id ⟨1, t, t + 1 * minute⟩,
        lockoutDuration := 1 * hour, maxAttempts := 1 } := by
    rw [htr]
    simp [RecordFailedAttempt, hnone, calculateLockoutDuration]
  refine ⟨by rw [htr], by rw [htr], by simp [ApplySecurityLevel, UpdateConfig], ?_, ?_⟩
  · rw [hrec]
    simp [IsAccountLocked, lookupA_insertA_self]
    have := minute_pos
    omega
  · rw [hrec]
    simp [GetRemainingLockoutTime, lookupA_insertA_self]

/-- C1 witness for the amended theorem at a concrete input. -/
theorem C1_max_level_single_failure_witness :
    lookupA newSecurityManager.attemptTracker.attempts "W" = none ∧
    IsAccountLocked
      (RecordFailedAttempt (ApplySecurityLevel newSecurityManager .max).attemptTracker
        "W" 5) "W" 5 = true :=
  ⟨rfl, (C1_max_level_single_failure newSecurityManager "W" 5 rfl).2.2.2.1⟩

/-- C9: with threshold 3 and the escalation schedule starting at 1 minute,
three consecutive failures on an identity with no prior record lock the
account, the remaining lockout at the moment of the third failure is exactly
1 minute, the remaining lockout is never negative, and a subsequent
RecordSuccessfulAttempt deletes the record so the account is immediately
unlocked. -/
theorem C9_threshold_three_failures_lock (tr : AttemptTrackerState) (id : String)
    (t1 t2 t3 : Nat) (hmax : tr.maxAttempts = 3)
    (hnone : lookupA tr.attempts id = none) (h12 : t1 ≤ t2) (h23 : t2 ≤ t3) :
    IsAccountLocked
      (RecordFailedAttempt (RecordFailedAttempt (RecordFailedAttempt tr id t1) id t2)
        id t3) id t3 = true ∧
    GetRemainingLockoutTime
      (RecordFailedAttempt (RecordFailedAttempt (RecordFailedAttempt tr id t1) id t2)
        id t3) id t3 = (minute : Int) ∧
    (∀ now : Nat, 0 ≤ GetRemainingLockoutTime
      (RecordFailedAttempt (RecordFailedAttempt (RecordFailedAttempt tr id t1) id t2)
        id t3) id now) ∧
    (∀ t4 : Nat, IsAccountLocked
      (RecordSuccessfulAttempt
        (RecordFailedAttempt (RecordFailedAttempt (RecordFailedAttempt tr id t1) id t2)
          id t3) id) id t4 = false) := by
  have e1 : RecordFailedAttempt tr id t1 =
      { tr with attempts := insertA tr.attempts id ⟨1, t1, 0⟩ } := by
    simp [RecordFailedAttempt, hnone, hmax]
  have e2 : RecordFailedAttempt (RecordFailedAttempt tr id t1) id t2 =
      { tr with attempts := insertA tr.attempts id ⟨2, t2, 0⟩ } := by
    rw [e1]
    simp [RecordFailedAttempt, lookupA_insertA_self, hmax, insertA_insertA_self]
  have e3 : RecordFailedAttempt (RecordFailedAttempt (RecordFailedAttempt tr id t1)
      id t2) id t3 =
      { tr with attempts := insertA tr.attempts id ⟨3, t3, t3 + 1 * minute⟩ } := by
    rw [e2]
    simp [RecordFailedAttempt, lookupA_insertA_self, hmax, insertA_insertA_self,
      calculateLockoutDuration]
  rw [e3]
  have hm := minute_pos
  refine ⟨?_, ?_, ?_, ?_⟩
  · simp [IsAccountLocked, lookupA_insertA_self]
    omega
  · simp [GetRemainingLockoutTime, lookupA_insertA_self]
  · intro now
    simp only [GetRemainingLockoutTime, lookupA_insertA_self]
    split <;> omega
  · intro t4
    simp [RecordSuccessfulAttempt, IsAccountLocked, eraseA_insertA_fresh _ _ _ hnone,
      hnone]

/-- C9 witness for the scenario at concrete times. -/
theorem C9_threshold_three_failures_lock_witness :
    newAttemptTracker.maxAttempts = 3 ∧
    IsAccountLocked
      (RecordFailedAttempt
        (RecordFailedAttempt (RecordFailedAttempt newAttemptTracker "W1" 0) "W1" 1)
        "W1" 2) "W1" 2 = true :=
  ⟨rfl, (C9_threshold_three_failures_lock newAttemptTracker "W1" 0 1 2 rfl rfl
    (by norm_num) (by norm_num)).1⟩

/-! ## Token-format claims -/

theorem getD_prop {α : Type} (P : α → Prop) :
    ∀ (l : List α) (n : Nat) (d : α), (∀ c ∈ l, P c) → P d → P (l.getD n d) := by
  intro l
  induction l with
  | nil =>
      intro n d _ hd
      simpa [List.getD] using hd
  | cons c rest ih =>
      intro n d hl hd
      cases n with
      | zero => simpa [List.getD] using hl c (by simp)
      | succ n =>
          simp only [List.getD_cons_succ]
          exact ih n d (fun x hx => hl x (by simp [hx])) hd

theorem isHexChar_hexDigit (n : Nat) : isHexChar (hexDigit n) = true :=
  getD_prop (fun c => isHexChar c = true) hexDigits n '0' (by decide) (by decide)

theorem encode_join_length (bytes : List Nat) :
    ((bytes.map encodeByte).join).length = 2 * bytes.length := by
  induction bytes with
  | nil => simp
  | cons b rest ih => simp [encodeByte, ih]; omega

theorem encode_join_hex (bytes : List Nat) :
    ∀ c ∈ (bytes.map encodeByte).join, isHexChar c = true := by
  induction bytes with
  | nil => simp
  | cons b rest ih =>
      intro c hc
      simp only [List.map_cons, List.join_cons, List.mem_append] at hc
      rcases hc with hc | hc
      · simp only [encodeByte, List.mem_cons, List.mem_singleton] at hc
        rcases hc with hc | hc | hc
        · rw [hc]; exact isHexChar_hexDigit _
        · rw [hc]; exact isHexChar_hexDigit _
        · cases hc
      · exact ih c hc

/-- C10: every token generated from a 32-byte random input is a 64-character
hex string accepted by ValidateSessionToken; the validator rejects any string
whose length is not 64 or that contains a non-hex character. -/
theorem C10_generated_tokens_validate (bytes : List Nat) (hlen : bytes.length = 32)
    (hbyte : ∀ b ∈ bytes, b < 256) :
    (generateSessionToken bytes).length = 64 ∧
    ValidateSessionToken (generateSessionToken bytes) = true ∧
    (∀ s : String, s.length ≠ 64 → ValidateSessionToken s = false) ∧
    (∀ s : String, (∃ c ∈ s.data, isHexChar c = false) →
      ValidateSessionToken s = false) := by
  have hl : (generateSessionToken bytes).length = 64 := by
    have hj : ((bytes.map encodeByte).join).length = 64 := by
      rw [encode_join_length, hlen]
    simpa [generateSessionToken, String.length] using hj
  refine ⟨hl, ?_, ?_, ?_⟩
  · simp only [ValidateSessionToken, hl]
    simp only [hexDecodeOk, hl]
    have hall : (generateSessionToken bytes).data.all isHexChar = true := by
      rw [List.all_eq_true]
      intro c hc
      exact encode_join_hex bytes c (by simpa [generateSessionToken] using hc)
    simp [hall]
  · intro s hs
    simp [ValidateSessionToken, hs]
  · intro s hbad
    obtain ⟨c, hc, hbadc⟩ := hbad
    by_cases hs : s.length = 64
    · have hall : s.data.all isHexChar = false := by
        rw [List.all_eq_false]
        exact ⟨c, hc, by simp [hbadc]⟩
      simp [ValidateSessionToken, hexDecodeOk, hs, hall]
    · simp [ValidateSessionToken, hs]

/-- C10 witness at the all-zero 32-byte input. -/
theorem C10_generated_tokens_validate_witness :
    (List.replicate 32 0).length = 32 ∧
    ValidateSessionToken (generateSessionToken (List.replicate 32 0)) = true :=
  ⟨by decide,
   (C10_generated_tokens_validate (List.replicate 32 0) (by decide) (by decide)).2.1⟩

/-! ## Close-session claims -/

theorem lookupA_none_of_not_mem {α : Type} (m : List (String × α)) (k : String)
    (h : k ∉ m.map Prod.fst) : lookupA m k = none := by
  induction m with
  | nil => rfl
  | cons p rest ih =>
      obtain ⟨k2, v⟩ := p
      simp only [List.map_cons, List.mem_cons] at h
      push_neg at h
      have h2 : k2 ≠ k := fun hh => h.1 hh.symm
      simp [lookupA, h2, ih h.2]

theorem lookupA_eraseA_self {α : Type} (m : List (String × α)) (k : String)
    (h : keysNodup m) : lookupA (eraseA m k) k = none := by
  induction m with
  | nil => rfl
  | cons p rest ih =>
      obtain ⟨k2, v⟩ := p
      simp only [keysNodup, List.map_cons, List.nodup_cons] at h
      by_cases h2 : k2 = k
      · subst h2
        simpa [eraseA] using lookupA_none_of_not_mem rest k2 h.1
      · simp [eraseA, h2, lookupA, ih h.2]

theorem clearSensitiveData_token (s : WalletSession) :
    (clearSensitiveData s).sessionToken = "" := by
  unfold clearSensitiveData
  cases s.unlockedWallet <;> simp <;> split <;> simp

theorem clearSensitiveData_isActive (s : WalletSession) :
    (clearSensitiveData s).isActive = s.isActive := by
  unfold clearSensitiveData
  cases s.unlockedWallet <;> simp <;> split <;> simp

theorem clearSensitiveData_privateKey (s : WalletSession) (w : Wallet)
    (hw : (clearSensitiveData s).unlockedWallet = some w) : w.privateKey = none := by
  unfold clearSensitiveData at hw
  cases hww : s.unlockedWallet with
  | none => simp [hww] at hw
  | some w0 =>
      rw [hww] at hw
      by_cases hk : w0.privateKey.isSome
      · simp [hk] at hw
        rw [← hw]
      · simp [hk, hww] at hw
        rw [← hw]
        simpa using hk

theorem clearSensitiveData_mnemonic (s : WalletSession) (w w2 : Wallet)
    (hw : s.unlockedWallet = some w) (hk : w.privateKey.isSome)
    (hw2 : (clearSensitiveData s).unlockedWallet = some w2) : w2.mnemonic = "" := by
  unfold clearSensitiveData at hw2
  rw [hw] at hw2
  simp [hk] at hw2
  rw [← hw2]

/-- C8 (counterexample): a session whose wallet holds a mnemonic but a nil
private key keeps its mnemonic after CloseSession succeeds — the mnemonic is
cleared only inside the non-nil-private-key branch of clearSensitiveData. -/
theorem C8_close_session_counterexample :
    CloseSession
      { sessions := [("w", ⟨"w", some ⟨"w", none, "abandon"⟩, 0, 0, 100, "tok", true⟩)],
        config := defaultSessionConfig } "w" =
      Except.ok ((⟨"w", some ⟨"w", none, "abandon"⟩, 0, 0, 100, "", false⟩ :
          WalletSession),
        { sessions := [], config := defaultSessionConfig }) ∧
    ("abandon" : String) ≠ "" := by
  refine ⟨rfl, by decide⟩

/-- C8 (amended): after CloseSession(identity) succeeds, the closed session's
token is empty, it is inactive, its private-key reference is cleared, and the
mnemonic is cleared whenever the wallet held a non-nil private key (a wallet
holding only a mnemonic keeps it); the registry entry is removed, so
GetSession reports not found and ValidateSession returns false for every token
until a new session is created for that identity. -/
theorem C8_close_session_clears (st : SessionManagerState) (id : String)
    (s : WalletSession) (hs : lookupA st.sessions id = some s)
    (hnd : keysNodup st.sessions) :
    ∃ cleared st2,
      CloseSession st id = Except.ok (cleared, st2) ∧
      cleared.sessionToken = "" ∧
      cleared.isActive = false ∧
      (∀ w, cleared.unlockedWallet = some w → w.privateKey = none) ∧
      (∀ w w2, s.unlockedWallet = some w → w.privateKey.isSome = true →
        cleared.unlockedWallet = some w2 → w2.mnemonic = "") ∧
      lookupA st2.sessions id = none ∧
      (∀ now : Nat, GetSession st2 id now = none) ∧
      (∀ tok : String, ∀ now : Nat, ValidateSession st2 id tok now = false) := by
  refine ⟨clearSensitiveData { s with isActive := false },
    { st with sessions := eraseA st.sessions id }, ?_, ?_, ?_, ?_, ?_, ?_, ?_, ?_⟩
  · simp [CloseSession, hs]
  · exact clearSensitiveData_token _
  · rw [clearSensitiveData_isActive]
  · intro w hw
    exact clearSensitiveData_privateKey _ _ hw
  · intro w w2 hw hk hw2
    exact clearSensitiveData_mnemonic { s with isActive := false } w w2
      (by simpa using hw) hk hw2
  · exact lookupA_eraseA_self st.sessions id hnd
  · intro now
    simp [GetSession, lookupA_eraseA_self st.sessions id hnd]
  · intro tok now
    simp [ValidateSession, lookupA_eraseA_self st.sessions id hnd]

/-- C8 witness for the amended theorem at a concrete registry. -/
theorem C8_close_session_clears_witness :
    lookupA [("w", (⟨"w", none, 0, 0, 5, "t", true⟩ : WalletSession))] "w" =
      some ⟨"w", none, 0, 0, 5, "t", true⟩ ∧
    keysNodup [("w", (⟨"w", none, 0, 0, 5, "t", true⟩ : WalletSession))] ∧
    (∃ cleared st2,
      CloseSession
        { sessions := [("w", ⟨"w", none, 0, 0, 5, "t", true⟩)],
          config := defaultSessionConfig } "w" = Except.ok (cleared, st2) ∧
      cleared.sessionToken = "" ∧
      cleared.isActive = false ∧
      (∀ w, cleared.unlockedWallet = some w → w.privateKey = none) ∧
      (∀ w w2,
        (⟨"w", none, 0, 0, 5, "t", true⟩ : WalletSession).unlockedWallet = some w →
        w.privateKey.isSome = true →
        cleared.unlockedWallet = some w2 → w2.mnemonic = "") ∧
      lookupA st2.sessions "w" = none ∧
      (∀ now : Nat, GetSession st2 "w" now = none) ∧
      (∀ tok : String, ∀ now : Nat, ValidateSession st2 "w" tok now = false)) :=
  ⟨rfl, by simp [keysNodup],
   C8_close_session_clears
     { sessions := [("w", ⟨"w", none, 0, 0, 5, "t", true⟩)],
       config := defaultSessionConfig } "w" ⟨"w", none, 0, 0, 5, "t", true⟩ rfl
     (by simp [keysNodup])⟩

/-! ## Registry trace lemmas -/

theorem lookupA_mem {α : Type} (m : List (String × α)) (k : String) (v : α)
    (h : lookupA m k = some v) : (k, v) ∈ m := by
  induction m with
  | nil => simp [lookupA] at h
  | cons q rest ih =>
      obtain ⟨k2, v2⟩ := q
      by_cases h2 : k2 = k
      · subst h2
        simp [lookupA] at h
        simp [h]
      · simp [lookupA, h2] at h
        simp [ih h]

theorem mem_insertA {α : Type} (m : List (String × α)) (k : String) (v : α)
    (p : String × α) (hp : p ∈ insertA m k v) : p ∈ m ∨ p = (k, v) := by
  induction m with
  | nil => simpa [insertA] using hp
  | cons q rest ih =>
      obtain ⟨k2, v2⟩ := q
      by_cases h : k2 = k
      · simp [insertA, h] at hp
        rcases hp with hp | hp
        · right; simp [hp]
        · left; simp [hp]
      · simp [insertA, h] at hp
        rcases hp with hp | hp
        · left; simp [hp]
        · rcases ih hp with h2 | h2
          · left; simp [h2]
          · right; exact h2

theorem mem_eraseA {α : Type} (m : List (String × α)) (k : String)
    (p : String × α) (hp : p ∈ eraseA m k) : p ∈ m := by
  induction m with
  | nil => simpa [eraseA] using hp
  | cons q rest ih =>
      obtain ⟨k2, v2⟩ := q
      by_cases h : k2 = k
      · simp [eraseA, h] at hp
        simp [hp]
      · simp [eraseA, h] at hp
        rcases hp with hp | hp
        · simp [hp]
        · simp [ih hp]

theorem applyOp_config (st : SessionManagerState) (op : RegistryOp)
    (h : ∀ c, op ≠ RegistryOp.updateConfig c) :
    (applyOp st op).config = st.config := by
  cases op with
  | create w tok t =>
      by_cases hc : st.config.maxSessions ≤ st.sessions.length <;>
        simp [applyOp, CreateSession, hc]
  | extend id t =>
      cases hl : lookupA st.sessions id with
      | none => simp [applyOp, ExtendSession, hl]
      | some s =>
          by_cases ha : s.isActive <;> simp [applyOp, ExtendSession, hl, ha]
  | close id =>
      cases hl : lookupA st.sessions id with
      | none => simp [applyOp, CloseSession, hl]
      | some s => simp [applyOp, CloseSession, hl]
  | updateConfig c => exact absurd rfl (h c)
  | cleanup t => simp [applyOp, cleanupExpiredSessions]

theorem timeInv_applyOp (st : SessionManagerState) (clock : Nat) (op : RegistryOp)
    (hinv : timeInv st clock)
    (ht : ∀ t, opTime op = some t → clock ≤ t) :
    timeInv (applyOp st op) ((opTime op).getD clock) := by
  cases op with
  | create w tok t =>
      have hct : clock ≤ t := ht t rfl
      by_cases hc : st.config.maxSessions ≤ st.sessions.length
      · simp only [applyOp, CreateSession, hc, if_true, opTime, Option.getD]
        intro p hp
        obtain ⟨h1, h2, h3⟩ := hinv p hp
        exact ⟨h1, le_trans h2 hct, h3⟩
      · simp only [applyOp, CreateSession, hc, if_false, opTime, Option.getD]
        intro p hp
        rcases mem_insertA _ _ _ _ hp with hold | hnew
        · obtain ⟨h1, h2, h3⟩ := hinv p hold
          exact ⟨h1, le_trans h2 hct, h3⟩
        · subst hnew
          exact ⟨le_refl t, le_refl t, Nat.le_add_right t _⟩
  | extend id t =>
      have hct : clock ≤ t := ht t rfl
      cases hl : lookupA st.sessions id with
      | none =>
          simp only [applyOp, ExtendSession, hl, opTime, Option.getD]
          intro p hp
          obtain ⟨h1, h2, h3⟩ := hinv p hp
          exact ⟨h1, le_trans h2 hct, h3⟩
      | some s =>
          have hsmem := lookupA_mem st.sessions id s hl
          obtain ⟨hs1, hs2, hs3⟩ := hinv (id, s) hsmem
          by_cases ha : s.isActive
          · simp only [applyOp, ExtendSession, hl, ha, not_true, if_false,
              opTime, Option.getD]
            intro p hp
            rcases mem_insertA _ _ _ _ hp with hold | hnew
            · obtain ⟨h1, h2, h3⟩ := hinv p hold
              exact ⟨h1, le_trans h2 hct, h3⟩
            · subst hnew
              refine ⟨le_trans (le_trans hs1 hs2) hct, le_refl t, ?_⟩
              exact le_trans (le_trans (le_trans hs1 hs2) hct) (Nat.le_add_right t _)
          · simp only [applyOp, ExtendSession, hl, ha, opTime, Option.getD]
            intro p hp
            obtain ⟨h1, h2, h3⟩ := hinv p hp
            exact ⟨h1, le_trans h2 hct, h3⟩
  | close id =>
      cases hl : lookupA st.sessions id with
      | none =>
          simpa only [applyOp, CloseSession, hl, opTime, Option.getD] using hinv
      | some s =>
          simp only [applyOp, CloseSession, hl, opTime, Option.getD]
          intro p hp
          exact hinv p (mem_eraseA _ _ _ hp)
  | updateConfig c =>
      simpa only [applyOp, UpdateConfig, opTime, Option.getD] using hinv
  | cleanup t =>
      have hct : clock ≤ t := ht t rfl
      simp only [applyOp, cleanupExpiredSessions, opTime, Option.getD]
      intro p hp
      obtain ⟨h1, h2, h3⟩ := hinv p (List.mem_filter.mp hp).1
      exact ⟨h1, le_trans h2 hct, h3⟩

theorem timeInv_runOps (ops : List RegistryOp) : ∀ (st : SessionManagerState)
    (clock : Nat), timeInv st clock → wellTimedFrom clock ops = true →
    timeInv (runOps st ops) (finalClock clock ops) := by
  induction ops with
  | nil =>
      intro st clock h _
      simpa [runOps, finalClock] using h
  | cons op rest ih =>
      intro st clock h hw
      simp only [runOps, finalClock]
      cases hop : opTime op with
      | some t =>
          rw [wellTimedFrom, hop] at hw
          simp only [Bool.and_eq_true, decide_eq_true_eq] at hw
          have hstep := timeInv_applyOp st clock op h
            (fun t2 ht2 => by rw [hop] at ht2; cases ht2; exact hw.1)
          rw [hop] at hstep
          simp only [Option.getD] at hstep ⊢
          exact ih (applyOp st op) t hstep hw.2
      | none =>
          rw [wellTimedFrom, hop] at hw
          simp only at hw
          have hstep := timeInv_applyOp st clock op h
            (fun t2 ht2 => by rw [hop] at ht2; cases ht2)
          rw [hop] at hstep
          simp only [Option.getD] at hstep ⊢
          exact ih (applyOp st op) clock hstep hw

theorem slidingInv_applyOp (st : SessionManagerState) (op : RegistryOp)
    (hinv : slidingInv st) (hnc : ∀ c, op ≠ RegistryOp.updateConfig c) :
    slidingInv (applyOp st op) := by
  cases op with
  | create w tok t =>
      by_cases hc : st.config.maxSessions ≤ st.sessions.length
      · simpa only [applyOp, CreateSession, hc, if_true] using hinv
      · simp only [applyOp, CreateSession, hc, if_false]
        intro p hp
        rcases mem_insertA _ _ _ _ hp with hold | hnew
        · exact hinv p hold
        · subst hnew; rfl
  | extend id t =>
      cases hl : lookupA st.sessions id with
      | none => simpa only [applyOp, ExtendSession, hl] using hinv
      | some s =>
          by_cases ha : s.isActive
          · simp only [applyOp, ExtendSession, hl, ha, not_true, if_false]
            intro p hp
            rcases mem_insertA _ _ _ _ hp with hold | hnew
            · exact hinv p hold
            · subst hnew; rfl
          · simpa only [applyOp, ExtendSession, hl, ha] using hinv
  | close id =>
      cases hl : lookupA st.sessions id with
      | none => simpa only [applyOp, CloseSession, hl] using hinv
      | some s =>
          simp only [applyOp, CloseSession, hl]
          intro p hp
          exact hinv p (mem_eraseA _ _ _ hp)
  | updateConfig c => exact absurd rfl (hnc c)
  | cleanup t =>
      simp only [applyOp, cleanupExpiredSessions]
      intro p hp
      exact hinv p (List.mem_filter.mp hp).1

theorem slidingInv_runOps (ops : List RegistryOp) : ∀ (st : SessionManagerState),
    slidingInv st → (∀ op ∈ ops, ∀ c, op ≠ RegistryOp.updateConfig c) →
    slidingInv (runOps st ops) := by
  induction ops with
  | nil =>
      intro st h _
      simpa [runOps] using h
  | cons op rest ih =>
      intro st h hnc
      simp only [runOps]
      exact ih (applyOp st op)
        (slidingInv_applyOp st op h (hnc op (by simp)))
        (fun op2 hop2 => hnc op2 (by simp [hop2]))

/-- C2 (counterexample): an UpdateConfig that lowers DefaultTimeout between a
create and an extend makes the extend decrease the session's expiry: with the
default 5-minute timeout a session created at time 0 expires at 5 min, and
after switching to a 2-minute timeout an Extend at 1 s moves the expiry back
to 1 s + 2 min < 5 min. -/
theorem C2_extend_can_decrease_counterexample :
    Option.map (fun s => s.expiresAt)
      (lookupA (runOps newSessionManager
        [RegistryOp.create ⟨"w", none, ""⟩ "tok" 0,
         RegistryOp.updateConfig ⟨2 * minute, 1, 10 * second, 2 * minute, true⟩]).sessions
        "w") = some (5 * minute) ∧
    Option.map (fun s => s.expiresAt)
      (lookupA (runOps newSessionManager
        [RegistryOp.create ⟨"w", none, ""⟩ "tok" 0,
         RegistryOp.updateConfig ⟨2 * minute, 1, 10 * second, 2 * minute, true⟩,
         RegistryOp.extend "w" second]).sessions "w") = some (second + 2 * minute) ∧
    second + 2 * minute < 5 * minute := by
  refine ⟨by decide, by decide, by decide⟩

/-- C2 (amended): for every well-timed trace of registry operations starting
from a fresh registry, every session's expiry stays at or above its creation
time (this part holds even across UpdateConfig / ApplySecurityLevel); and in a
trace with no config replacement, an Extend performed next never decreases the
extended session's expiry. An UpdateConfig that lowers DefaultTimeout can make
a subsequent Extend decrease the expiry (see the counterexample). -/
theorem C2_extend_never_decreases_expiry (ops : List RegistryOp)
    (hw : wellTimedFrom 0 ops = true) :
    (∀ p ∈ (runOps newSessionManager ops).sessions,
      p.2.createdAt ≤ p.2.expiresAt) ∧
    ((∀ op ∈ ops, ∀ c, op ≠ RegistryOp.updateConfig c) →
      ∀ (id : String) (t : Nat) (st2 : SessionManagerState) (s s2 : WalletSession),
        finalClock 0 ops ≤ t →
        lookupA (runOps newSessionManager ops).sessions id = some s →
        ExtendSession (runOps newSessionManager ops) id t = Except.ok st2 →
        lookupA st2.sessions id = some s2 →
        s.expiresAt ≤ s2.expiresAt) := by
  have h0 : timeInv newSessionManager 0 := by
    intro p hp
    simp [newSessionManager] at hp
  have hti := timeInv_runOps ops newSessionManager 0 h0 hw
  constructor
  · intro p hp
    exact (hti p hp).2.2
  · intro hnc id t st2 s s2 hclock hs hext hs2
    have hsl : slidingInv (runOps newSessionManager ops) :=
      slidingInv_runOps ops newSessionManager
        (by intro p hp; simp [newSessionManager] at hp) hnc
    have hsmem := lookupA_mem _ _ _ hs
    have hexpiry := hsl (id, s) hsmem
    have hact := (hti (id, s) hsmem).2.1
    by_cases ha : s.isActive
    · simp only [ExtendSession, hs, ha, not_true, if_false, Except.ok.injEq] at hext
      subst hext
      rw [lookupA_insertA_self] at hs2
      cases hs2
      have hact2 : s.lastActivity ≤ finalClock 0 ops := hact
      simp only at hexpiry ⊢
      omega
    · simp [ExtendSession, hs, ha] at hext

/-- C2 witness: a create followed by an extend on a fresh registry. -/
theorem C2_extend_never_decreases_expiry_witness :
    wellTimedFrom 0
      [RegistryOp.create ⟨"w", none, ""⟩ "tok" 0,
       RegistryOp.extend "w" second] = true ∧
    ((∀ p ∈ (runOps newSessionManager
        [RegistryOp.create ⟨"w", none, ""⟩ "tok" 0,
         RegistryOp.extend "w" second]).sessions,
      p.2.createdAt ≤ p.2.expiresAt) ∧
    ((∀ op ∈ [RegistryOp.create ⟨"w", none, ""⟩ "tok" 0,
         RegistryOp.extend "w" second], ∀ c, op ≠ RegistryOp.updateConfig c) →
      ∀ (id : String) (t : Nat) (st2 : SessionManagerState) (s s2 : WalletSession),
        finalClock 0 [RegistryOp.create ⟨"w", none, ""⟩ "tok" 0,
          RegistryOp.extend "w" second] ≤ t →
        lookupA (runOps newSessionManager
          [RegistryOp.create ⟨"w", none, ""⟩ "tok" 0,
           RegistryOp.extend "w" second]).sessions id = some s →
        ExtendSession (runOps newSessionManager
          [RegistryOp.create ⟨"w", none, ""⟩ "tok" 0,
           RegistryOp.extend "w" second]) id t = Except.ok st2 →
        lookupA st2.sessions id = some s2 →
        s.expiresAt ≤ s2.expiresAt)) :=
  ⟨by decide,
   C2_extend_never_decreases_expiry
     [RegistryOp.create ⟨"w", none, ""⟩ "tok" 0, RegistryOp.extend "w" second]
     (by decide)⟩

theorem createclose_len_step (st : SessionManagerState) (op : RegistryOp)
    (hop : isCreateOrClose op = true)
    (h : st.sessions.length ≤ st.config.maxSessions) :
    (applyOp st op).sessions.length ≤ (applyOp st op).config.maxSessions ∧
    (applyOp st op).config = st.config := by
  cases op with
  | create w tok t =>
      by_cases hc : st.config.maxSessions ≤ st.sessions.length
      · simp [applyOp, CreateSession, hc, h]
      · refine ⟨?_, by simp [applyOp, CreateSession, hc]⟩
        simp only [applyOp, CreateSession, hc, if_false]
        rcases length_insertA st.sessions w.id
          ⟨w.id, some w, t, t, t + st.config.defaultTimeout, tok, true⟩ with hlen | hlen
        · simpa [hlen] using h
        · simp only [hlen]
          omega
  | close id =>
      cases hl : lookupA st.sessions id with
      | none => simp [applyOp, CloseSession, hl, h]
      | some s =>
          refine ⟨?_, by simp [applyOp, CloseSession, hl]⟩
          simp only [applyOp, CloseSession, hl]
          exact le_trans (length_eraseA_le st.sessions id) h
  | extend id t => simp [isCreateOrClose] at hop
  | updateConfig c => simp [isCreateOrClose] at hop
  | cleanup t => simp [isCreateOrClose] at hop

theorem createclose_len_runOps (ops : List RegistryOp) :
    ∀ st : SessionManagerState, (∀ op ∈ ops, isCreateOrClose op = true) →
      st.sessions.length ≤ st.config.maxSessions →
      (runOps st ops).sessions.length ≤ (runOps st ops).config.maxSessions ∧
      (runOps st ops).config = st.config := by
  induction ops with
  | nil =>
      intro st _ h
      exact ⟨by simpa [runOps] using h, rfl⟩
  | cons op rest ih =>
      intro st hops h
      simp only [runOps]
      have hstep := createclose_len_step st op (hops op (by simp)) h
      have hrest := ih (applyOp st op) (fun o ho => hops o (by simp [ho])) hstep.1
      exact ⟨hrest.1, by rw [hrest.2, hstep.2]⟩

/-- C4: CreateSession fails with the capacity error exactly when the registry
already holds the configured maximum; otherwise it returns and stores a fresh
session whose expiry is now + defaultTimeout and whose token is the supplied
random token; and along any sequence of Create/Close operations the registry
never exceeds maxSessions sessions. -/
theorem C4_capacity_and_bound (st : SessionManagerState) (w : Wallet) (tok : String)
    (now : Nat) :
    (st.config.maxSessions ≤ st.sessions.length →
      CreateSession st w tok now = Except.error "maximum number of sessions reached") ∧
    (st.sessions.length < st.config.maxSessions →
      ∃ session st2, CreateSession st w tok now = Except.ok (session, st2) ∧
        session.walletID = w.id ∧ session.unlockedWallet = some w ∧
        session.createdAt = now ∧ session.lastActivity = now ∧
        session.expiresAt = now + st.config.defaultTimeout ∧
        session.sessionToken = tok ∧ session.isActive = true ∧
        lookupA st2.sessions w.id = some session ∧ st2.config = st.config) ∧
    (∀ ops : List RegistryOp, (∀ op ∈ ops, isCreateOrClose op = true) →
      st.sessions.length ≤ st.config.maxSessions →
      (runOps st ops).sessions.length ≤ st.config.maxSessions) := by
  refine ⟨?_, ?_, ?_⟩
  · intro hc
    simp [CreateSession, hc]
  · intro hc
    have hc2 : ¬ st.config.maxSessions ≤ st.sessions.length := by omega
    refine ⟨⟨w.id, some w, now, now, now + st.config.defaultTimeout, tok, true⟩,
      SessionManagerState.mk
        (insertA st.sessions w.id
          ⟨w.id, some w, now, now, now + st.config.defaultTimeout, tok, true⟩)
        st.config,
      ?_, rfl, rfl, rfl, rfl, rfl, rfl, rfl, lookupA_insertA_self _ _ _, rfl⟩
    simp [CreateSession, hc2]
  · intro ops hops h
    have hkey := createclose_len_runOps ops st hops h
    rw [hkey.2] at hkey
    exact hkey.1

/-- C4 witness: a create on the fresh registry with a create/close trace. -/
theorem C4_capacity_and_bound_witness :
    newSessionManager.sessions.length < newSessionManager.config.maxSessions ∧
    (∃ session st2,
      CreateSession newSessionManager ⟨"w", none, ""⟩ "tok" 0 =
        Except.ok (session, st2) ∧
      session.walletID = "w" ∧ session.unlockedWallet = some ⟨"w", none, ""⟩ ∧
      session.createdAt = 0 ∧ session.lastActivity = 0 ∧
      session.expiresAt = 0 + newSessionManager.config.defaultTimeout ∧
      session.sessionToken = "tok" ∧ session.isActive = true ∧
      lookupA st2.sessions "w" = some session ∧
      st2.config = newSessionManager.config) :=
  ⟨by decide,
   (C4_capacity_and_bound newSessionManager ⟨"w", none, ""⟩ "tok" 0).2.1 (by decide)⟩

/-! ## Risk-score claims -/

theorem countView_cons (v w : String) (l : List String) :
    countView (v :: l) w = (if v = w then 1 else 0) + countView l w := by
  by_cases h : v = w <;> simp [countView, List.filter_cons, h, Nat.add_comm]

theorem countView_eq_zero (l : List String) (v : String) (h : v ∉ l) :
    countView l v = 0 := by
  induction l with
  | nil => rfl
  | cons x rest ih =>
      simp only [List.mem_cons] at h
      push_neg at h
      have hx : ¬ x = v := fun e => h.1 e.symm
      simpa [countView_cons, hx] using ih h.2

theorem contrib_arith (b k : Nat) :
    (if 10 < b + 1 then 1 else 0) + (b + 1 + k - max (b + 1) 10) =
      b + (1 + k) - max b 10 := by
  split_ifs with h <;> omega

theorem contrib_arith0 (b : Nat) :
    (if 10 < b + 1 then 1 else 0) = b + 1 - max b 10 := by
  split_ifs with h <;> omega

theorem map_congr_mem {α β : Type} (l : List α) (f g : α → β)
    (h : ∀ x ∈ l, f x = g x) : l.map f = l.map g := by
  induction l with
  | nil => rfl
  | cons x rest ih =>
      simp only [List.map_cons]
      rw [h x (by simp), ih (fun y hy => h y (by simp [hy]))]

theorem sum_map_eq_add_erase {α : Type} [DecidableEq α] (L : List α) (v : α)
    (f : α → Nat) (hv : v ∈ L) :
    (L.map f).sum = f v + ((L.erase v).map f).sum := by
  have hperm := List.perm_cons_erase hv
  rw [List.Perm.sum_eq (hperm.map f)]
  simp

/-- The repeated-views loop computes, over distinct views, the total number of
visit-events beyond the tenth visit (relative to the running counts it starts
from). -/
theorem countRepeatedViews_eq (l : List String) : ∀ acc : List (String × Nat),
    countRepeatedViews l acc =
      (l.dedup.map (fun v =>
        (lookupA acc v).getD 0 + countView l v -
          max ((lookupA acc v).getD 0) 10)).sum := by
  induction l with
  | nil => intro acc; simp [countRepeatedViews]
  | cons v rest ih =>
      intro acc
      have hstep : countRepeatedViews (v :: rest) acc =
          (if 10 < (lookupA acc v).getD 0 + 1 then 1 else 0) +
            countRepeatedViews rest (insertA acc v ((lookupA acc v).getD 0 + 1)) :=
        rfl
      rw [hstep, ih (insertA acc v ((lookupA acc v).getD 0 + 1))]
      by_cases hv : v ∈ rest
      · rw [List.dedup_cons_of_mem hv]
        have hvd : v ∈ rest.dedup := List.mem_dedup.mpr hv
        have hnd : rest.dedup.Nodup := List.nodup_dedup rest
        rw [sum_map_eq_add_erase rest.dedup v _ hvd,
            sum_map_eq_add_erase rest.dedup v _ hvd]
        have hne : ∀ w ∈ rest.dedup.erase v, w ≠ v := by
          intro w hw he
          subst he
          exact hnd.not_mem_erase hw
        have hcongr : (rest.dedup.erase v).map (fun w =>
            (lookupA (insertA acc v ((lookupA acc v).getD 0 + 1)) w).getD 0 +
              countView rest w -
              max ((lookupA (insertA acc v ((lookupA acc v).getD 0 + 1)) w).getD 0)
                10) =
            (rest.dedup.erase v).map (fun w =>
              (lookupA acc w).getD 0 + countView (v :: rest) w -
                max ((lookupA acc w).getD 0) 10) := by
          apply map_congr_mem
          intro w hw
          have hvw : ¬ v = w := fun e => (hne w hw) e.symm
          rw [lookupA_insertA_ne acc v w _ hvw, countView_cons, if_neg hvw,
            Nat.zero_add]
        rw [hcongr]
        rw [lookupA_insertA_self]
        simp only [Option.getD_some]
        rw [countView_cons v v rest]
        have hvv : (if v = v then (1 : Nat) else 0) = 1 := if_pos rfl
        rw [hvv]
        have := contrib_arith ((lookupA acc v).getD 0) (countView rest v)
        omega
      · rw [List.dedup_cons_of_not_mem hv]
        simp only [List.map_cons, List.sum_cons]
        have hcongr : rest.dedup.map (fun w =>
            (lookupA (insertA acc v ((lookupA acc v).getD 0 + 1)) w).getD 0 +
              countView rest w -
              max ((lookupA (insertA acc v ((lookupA acc v).getD 0 + 1)) w).getD 0)
                10) =
            rest.dedup.map (fun w =>
              (lookupA acc w).getD 0 + countView (v :: rest) w -
                max ((lookupA acc w).getD 0) 10) := by
          apply map_congr_mem
          intro w hw
          have hwv : w ≠ v := by
            intro he
            subst he
            exact hv (List.mem_dedup.mp hw)
          have hvw : ¬ v = w := fun e => hwv e.symm
          rw [lookupA_insertA_ne acc v w _ hvw, countView_cons, if_neg hvw,
            Nat.zero_add]
        rw [hcongr]
        rw [countView_cons v v rest, countView_eq_zero rest v hv]
        have hvv : (if v = v then (1 : Nat) else 0) = 1 := if_pos rfl
        rw [hvv]
        have := contrib_arith0 ((lookupA acc v).getD 0)
        omega

theorem calculateRiskScore_eq_amendedRiskScore (p : ActivityPattern) :
    calculateRiskScore p = amendedRiskScore p := by
  unfold calculateRiskScore amendedRiskScore
  rw [countRepeatedViews_eq]
  have hmap : (p.viewTransitions.dedup.map (fun v =>
      (lookupA ([] : List (String × Nat)) v).getD 0 + countView p.viewTransitions v -
        max ((lookupA ([] : List (String × Nat)) v).getD 0) 10)).sum =
      (p.viewTransitions.dedup.map
        (fun v => countView p.viewTransitions v - 10)).sum := by
    apply congrArg
    apply map_congr_mem
    intro v hv
    simp [lookupA]
  rw [hmap]

/-- C3 (counterexample): an identity whose last hour holds 12 visits to one
view, one second apart, gets code risk score 0, while the claimed formula
(+2 as soon as any single view is revisited more than 10 times) gives 2. -/
theorem C3_risk_score_counterexample :
    (analyzeActivityPattern
      ((List.range 12).map (fun i =>
        (⟨"W", "navigate", hour + (i + 1) * second, "dashboard"⟩ : SessionActivity)))
      "W" (2 * hour)).riskScore = 0 ∧
    specRiskScore
      (analyzeActivityPattern
        ((List.range 12).map (fun i =>
          (⟨"W", "navigate", hour + (i + 1) * second, "dashboard"⟩ : SessionActivity)))
        "W" (2 * hour)) = 2 ∧
    (0 : Nat) ≠ 2 := by
  refine ⟨by decide, by decide, by decide⟩

/-- C3 (amended): the risk score over an identity's last hour equals the
weighted sum +5 if the window's view-transition count > 50, +3 if more than 10
adjacent transitions are under 500 ms apart, +8 if failed-unlock
(password_attempt) actions > 5, +4 if failed-transaction actions > 3, and +2
only when more than two visit-events in the window land beyond the tenth visit
to their view (total excess Σ over views of (count − 10) exceeding 2) — not as
soon as a single view passes 10 visits. -/
theorem C3_risk_score_formula (log : List SessionActivity) (id : String)
    (now : Nat) :
    (analyzeActivityPattern log id now).riskScore =
      amendedRiskScore (analyzeActivityPattern log id now) := by
  have h1 : (analyzeActivityPattern log id now).riskScore =
      calculateRiskScore (analyzeActivityPattern log id now) := rfl
  rw [h1, calculateRiskScore_eq_amendedRiskScore]

/-! ## Session-store claims -/

theorem lookupA_append_of_none {α : Type} (l1 l2 : List (String × α)) (k : String)
    (h : lookupA l1 k = none) : lookupA (l1 ++ l2) k = lookupA l2 k := by
  induction l1 with
  | nil => simp
  | cons p rest ih =>
      obtain ⟨k2, v⟩ := p
      by_cases h2 : k2 = k
      · simp [lookupA, h2] at h
      · simp only [lookupA, h2, if_false] at h
        simpa [lookupA, h2] using ih h

theorem load_save_aux (cm : CryptoModel) (tSave tLoad : Nat) :
    ∀ (l : List (String × WalletSession)) (acc : List (String × WalletSession)),
    (∀ p ∈ l, p.2.walletID = p.1) →
    (l.map Prod.fst).Nodup →
    (∀ p ∈ l, cm.decrypt (cm.encrypt (cm.serialize (sessionDataOf p.2))) =
      some (cm.serialize (sessionDataOf p.2))) →
    (∀ p ∈ l, cm.deserialize (cm.serialize (sessionDataOf p.2)) =
      some (sessionDataOf p.2)) →
    (∀ p ∈ l, p.2.isActive = true → ¬ p.2.expiresAt < tSave →
      ¬ p.2.expiresAt < tLoad) →
    (∀ p ∈ l, lookupA acc p.1 = none) →
    List.foldl (loadOne cm tLoad) acc (SaveSessions cm l tSave) =
      acc ++ (l.filter
          (fun p => p.2.isActive && !decide (p.2.expiresAt < tSave))).map
        (fun p => (p.1, ⟨p.2.walletID, none, p.2.createdAt, p.2.lastActivity,
          p.2.expiresAt, p.2.sessionToken, p.2.isActive⟩)) := by
  intro l
  induction l with
  | nil =>
      intro acc _ _ _ _ _ _
      simp [SaveSessions]
  | cons p rest ih =>
      intro acc hid hnd hrt hde hexp hfresh
      have hmem : p ∈ p :: rest := by simp
      simp only [List.map_cons, List.nodup_cons] at hnd
      by_cases hc : (p.2.isActive && !decide (p.2.expiresAt < tSave)) = true
      · have hc2 : p.2.isActive = true ∧ ¬ p.2.expiresAt < tSave := by
          simpa using hc
        have hact := hc2.1
        have hnotexp := hc2.2
        have hsave : SaveSessions cm (p :: rest) tSave =
            persistOf cm p.2 :: SaveSessions cm rest tSave := by
          simp [SaveSessions, List.filter_cons, hc]
        have hfil : (p :: rest).filter
            (fun q => q.2.isActive && !decide (q.2.expiresAt < tSave)) =
            p :: rest.filter
              (fun q => q.2.isActive && !decide (q.2.expiresAt < tSave)) := by
          simp [List.filter_cons, hc]
        rw [hsave, hfil]
        have hneP : ¬ p.2.expiresAt < tLoad := hexp p hmem hact hnotexp
        have hrtP : cm.decrypt (cm.encrypt (cm.serialize
            ⟨p.2.walletID, p.2.lastActivity, p.2.isActive⟩)) =
            some (cm.serialize ⟨p.2.walletID, p.2.lastActivity, p.2.isActive⟩) :=
          hrt p hmem
        have hdeP : cm.deserialize (cm.serialize
            ⟨p.2.walletID, p.2.lastActivity, p.2.isActive⟩) =
            some (⟨p.2.walletID, p.2.lastActivity, p.2.isActive⟩ : SessionData) :=
          hde p hmem
        have hL : loadOne cm tLoad acc (persistOf cm p.2) =
            insertA acc p.2.walletID ⟨p.2.walletID, none, p.2.createdAt,
              p.2.lastActivity, p.2.expiresAt, p.2.sessionToken, p.2.isActive⟩ := by
          simp [loadOne, persistOf, ValidateSessionIntegrity, hneP, hrtP, hdeP,
            sessionDataOf]
        have hfreshW : lookupA acc p.2.walletID = none := by
          rw [hid p hmem]
          exact hfresh p hmem
        simp only [List.foldl_cons]
        rw [hL, insertA_fresh _ _ _ hfreshW, hid p hmem]
        have hfresh2 : ∀ q ∈ rest, lookupA (acc ++
            [(p.1, (⟨p.1, none, p.2.createdAt, p.2.lastActivity, p.2.expiresAt,
              p.2.sessionToken, p.2.isActive⟩ : WalletSession))]) q.1 = none := by
          intro q hq
          rw [lookupA_append_of_none _ _ _ (hfresh q (by simp [hq]))]
          have hq1 : q.1 ≠ p.1 := by
            intro he
            exact hnd.1 (he ▸ (List.mem_map.mpr ⟨q, hq, rfl⟩))
          have hp1q : ¬ p.1 = q.1 := fun e => hq1 e.symm
          simp [lookupA, hp1q]
        have hrec := ih (acc ++
            [(p.1, (⟨p.1, none, p.2.createdAt, p.2.lastActivity, p.2.expiresAt,
              p.2.sessionToken, p.2.isActive⟩ : WalletSession))])
          (fun q hq => hid q (by simp [hq])) hnd.2
          (fun q hq => hrt q (by simp [hq]))
          (fun q hq => hde q (by simp [hq]))
          (fun q hq => hexp q (by simp [hq]))
          hfresh2
        rw [hrec]
        simp [hid p hmem]
      · have hsave : SaveSessions cm (p :: rest) tSave =
            SaveSessions cm rest tSave := by
          simp [SaveSessions, List.filter_cons, hc]
        have hfil : (p :: rest).filter
            (fun q => q.2.isActive && !decide (q.2.expiresAt < tSave)) =
            rest.filter
              (fun q => q.2.isActive && !decide (q.2.expiresAt < tSave)) := by
          simp [List.filter_cons, hc]
        rw [hsave, hfil]
        exact ih acc (fun q hq => hid q (by simp [hq])) hnd.2
          (fun q hq => hrt q (by simp [hq]))
          (fun q hq => hde q (by simp [hq]))
          (fun q hq => hexp q (by simp [hq]))
          (fun q hq => hfresh q (by simp [hq]))

/-- C5: Save followed by Load (same key, file untouched, load before any saved
expiry) reconstructs exactly the sessions that were active and unexpired at
save time, with matching identity, token, created-at and expires-at, the
persisted last-activity, the active flag, and a nil secret reference. -/
theorem C5_save_load_roundtrip (cm : CryptoModel)
    (sessions : List (String × WalletSession)) (tSave tLoad : Nat)
    (hid : ∀ p ∈ sessions, p.2.walletID = p.1)
    (hnd : keysNodup sessions)
    (hrt : ∀ p ∈ sessions, cm.decrypt (cm.encrypt (cm.serialize
      (sessionDataOf p.2))) = some (cm.serialize (sessionDataOf p.2)))
    (hde : ∀ p ∈ sessions, cm.deserialize (cm.serialize (sessionDataOf p.2)) =
      some (sessionDataOf p.2))
    (hexp : ∀ p ∈ sessions, p.2.isActive = true → ¬ p.2.expiresAt < tSave →
      ¬ p.2.expiresAt < tLoad) :
    LoadSessions cm (SaveSessions cm sessions tSave) tLoad =
      (sessions.filter
          (fun p => p.2.isActive && !decide (p.2.expiresAt < tSave))).map
        (fun p => (p.1, ⟨p.2.walletID, none, p.2.createdAt, p.2.lastActivity,
          p.2.expiresAt, p.2.sessionToken, p.2.isActive⟩)) := by
  have h := load_save_aux cm tSave tLoad sessions [] hid hnd hrt hde hexp
    (fun p hp => rfl)
  simpa [LoadSessions] using h

/-- C5 witness: a one-session registry through the concrete crypto model. -/
theorem C5_save_load_roundtrip_witness :
    LoadSessions cmWitness (SaveSessions cmWitness
      [("w", ⟨"w", none, 0, 3, 100, "t", true⟩)] 0) 50 =
      [("w", ⟨"w", none, 0, 3, 100, "t", true⟩)] := by
  have h := C5_save_load_roundtrip cmWitness
    [("w", ⟨"w", none, 0, 3, 100, "t", true⟩)] 0 50
    (by decide) (by simp [keysNodup]) (by decide) (by decide) (by decide)
  rw [h]
  decide

theorem loadOne_invalid (cm : CryptoModel) (now : Nat) (r : PersistedSession)
    (h : cm.hash r.encryptedData ≠ r.checksum) :
    ∀ acc, loadOne cm now acc r = acc := by
  intro acc
  unfold loadOne
  by_cases he : r.expiresAt < now
  · rw [if_pos he]
  · rw [if_neg he]
    have hv : ValidateSessionIntegrity cm r = false := by
      simp [ValidateSessionIntegrity]
      exact h
    rw [if_pos (by simp [hv])]

theorem loadOne_other_key (cm : CryptoModel) (now : Nat) (r : PersistedSession)
    (acc : List (String × WalletSession)) :
    ∀ id, id ≠ r.walletID → lookupA (loadOne cm now acc r) id = lookupA acc id := by
  intro id hid2
  unfold loadOne
  by_cases he : r.expiresAt < now
  · rw [if_pos he]
  · rw [if_neg he]
    by_cases hv : ValidateSessionIntegrity cm r
    · rw [if_neg (by simp [hv])]
      cases hd : cm.decrypt r.encryptedData with
      | none => simp [hd]
      | some plain =>
          cases hs : cm.deserialize plain with
          | none => simp [hd, hs]
          | some data =>
              simp only [hd, hs]
              exact lookupA_insertA_ne acc r.walletID id _
                (fun e => hid2 e.symm)
    · rw [if_pos (by simpa using hv)]

theorem loadOne_agree (cm : CryptoModel) (now : Nat) (r : PersistedSession)
    (K : String) (acc1 acc2 : List (String × WalletSession))
    (h : ∀ id, id ≠ K → lookupA acc1 id = lookupA acc2 id) :
    ∀ id, id ≠ K → lookupA (loadOne cm now acc1 r) id =
      lookupA (loadOne cm now acc2 r) id := by
  intro id hid2
  unfold loadOne
  by_cases he : r.expiresAt < now
  · rw [if_pos he, if_pos he]
    exact h id hid2
  · rw [if_neg he, if_neg he]
    by_cases hv : ValidateSessionIntegrity cm r
    · rw [if_neg (by simp [hv]), if_neg (by simp [hv])]
      cases hd : cm.decrypt r.encryptedData with
      | none =>
          simp only [hd]
          exact h id hid2
      | some plain =>
          cases hs : cm.deserialize plain with
          | none =>
              simp only [hd, hs]
              exact h id hid2
          | some data =>
              simp only [hd, hs]
              by_cases hKid : id = r.walletID
              · subst hKid
                rw [lookupA_insertA_self, lookupA_insertA_self]
              · rw [lookupA_insertA_ne _ _ _ _ (fun e => hKid e.symm),
                  lookupA_insertA_ne _ _ _ _ (fun e => hKid e.symm)]
                exact h id hid2
    · rw [if_pos (by simpa using hv), if_pos (by simpa using hv)]
      exact h id hid2

theorem foldl_loadOne_agree (cm : CryptoModel) (now : Nat)
    (rs : List PersistedSession) :
    ∀ (K : String) (acc1 acc2 : List (String × WalletSession)),
    (∀ id, id ≠ K → lookupA acc1 id = lookupA acc2 id) →
    ∀ id, id ≠ K → lookupA (rs.foldl (loadOne cm now) acc1) id =
      lookupA (rs.foldl (loadOne cm now) acc2) id := by
  induction rs with
  | nil => intro K acc1 acc2 h id hid2; exact h id hid2
  | cons r rest ih =>
      intro K acc1 acc2 h id hid2
      simp only [List.foldl_cons]
      exact ih K (loadOne cm now acc1 r) (loadOne cm now acc2 r)
        (loadOne_agree cm now r K acc1 acc2 h) id hid2

/-- C6: flipping one byte of one persisted record's encrypted payload (so its
checksum no longer matches, SHA-256 being collision-free on the pair) makes
LoadSessions drop that record and only that record: the load result equals the
load of the list without it, and every identity other than the tampered
record's resolves exactly as in the untampered load. -/
theorem C6_tamper_drops_only_that_record (cm : CryptoModel) (now : Nat)
    (before after : List PersistedSession) (r : PersistedSession) (e2 : List Nat)
    (hlen : e2.length = r.encryptedData.length)
    (hdiff : diffCount e2 r.encryptedData = 1)
    (hhash : cm.hash e2 ≠ r.checksum) :
    LoadSessions cm (before ++ ({ r with encryptedData := e2 } :: after)) now =
      LoadSessions cm (before ++ after) now ∧
    (∀ id, id ≠ r.walletID →
      lookupA (LoadSessions cm
        (before ++ ({ r with encryptedData := e2 } :: after)) now) id =
      lookupA (LoadSessions cm (before ++ (r :: after)) now) id) := by
  have hskip : ∀ acc, loadOne cm now acc { r with encryptedData := e2 } = acc :=
    loadOne_invalid cm now _ (by simpa using hhash)
  constructor
  · unfold LoadSessions
    rw [List.foldl_append, List.foldl_append]
    simp only [List.foldl_cons]
    rw [hskip]
  · intro id hid2
    unfold LoadSessions
    rw [List.foldl_append, List.foldl_append]
    simp only [List.foldl_cons]
    rw [hskip]
    exact foldl_loadOne_agree cm now after r.walletID _ _
      (fun id2 h2 =>
        (loadOne_other_key cm now r (before.foldl (loadOne cm now) []) id2 h2).symm)
      id hid2

/-- C6 witness: a one-byte flip in a concrete one-record store. -/
theorem C6_tamper_drops_only_that_record_witness :
    LoadSessions cmWitness [⟨"w", "t", 0, 100, [1], "z"⟩] 50 =
      LoadSessions cmWitness [] 50 ∧
    (∀ id, id ≠ "w" →
      lookupA (LoadSessions cmWitness [⟨"w", "t", 0, 100, [1], "z"⟩] 50) id =
      lookupA (LoadSessions cmWitness [⟨"w", "t", 0, 100, [0], "z"⟩] 50) id) :=
  C6_tamper_drops_only_that_record cmWitness 50 [] []
    ⟨"w", "t", 0, 100, [0], "z"⟩ [1] (by decide) (by decide) (by decide)

/-- C7: SaveSessions never reads the unlocked-secret reference: two registries
whose sessions agree after erasing their secrets (identical identity,
timestamps, token, active flag — only private key / mnemonic may differ)
produce identical persisted output under the same (fixed-randomness)
encryption. -/
theorem C7_save_ignores_secrets (cm : CryptoModel) (now : Nat) :
    ∀ (s1 s2 : List (String × WalletSession)),
    s1.map (fun p => (p.1, eraseSecret p.2)) =
      s2.map (fun p => (p.1, eraseSecret p.2)) →
    SaveSessions cm s1 now = SaveSessions cm s2 now := by
  intro s1
  induction s1 with
  | nil =>
      intro s2 h
      cases s2 with
      | nil => rfl
      | cons q r2 => simp at h
  | cons p rest ih =>
      intro s2 h
      cases s2 with
      | nil => simp at h
      | cons q rest2 =>
          simp only [List.map_cons, List.cons.injEq, Prod.mk.injEq] at h
          obtain ⟨⟨h1, h2⟩, hrest⟩ := h
          have hW : p.2.walletID = q.2.walletID := by
            simpa [eraseSecret] using congrArg WalletSession.walletID h2
          have hC : p.2.createdAt = q.2.createdAt := by
            simpa [eraseSecret] using congrArg WalletSession.createdAt h2
          have hLA : p.2.lastActivity = q.2.lastActivity := by
            simpa [eraseSecret] using congrArg WalletSession.lastActivity h2
          have hE : p.2.expiresAt = q.2.expiresAt := by
            simpa [eraseSecret] using congrArg WalletSession.expiresAt h2
          have hT : p.2.sessionToken = q.2.sessionToken := by
            simpa [eraseSecret] using congrArg WalletSession.sessionToken h2
          have hA : p.2.isActive = q.2.isActive := by
            simpa [eraseSecret] using congrArg WalletSession.isActive h2
          have hpq : persistOf cm p.2 = persistOf cm q.2 := by
            unfold persistOf sessionDataOf
            rw [hW, hLA, hA, hT, hC, hE]
          have hcondEq : (p.2.isActive && !decide (p.2.expiresAt < now)) =
              (q.2.isActive && !decide (q.2.expiresAt < now)) := by
            rw [hA, hE]
          unfold SaveSessions
          simp only [List.filter_cons, hcondEq]
          by_cases hc : (q.2.isActive && !decide (q.2.expiresAt < now)) = true
          · simp only [hc, if_true, List.map_cons, hpq]
            exact congrArg (List.cons (persistOf cm q.2)) (ih rest2 hrest)
          · simp only [hc, if_false]
            exact ih rest2 hrest

/-- C7 witness: two registries identical except for private key and mnemonic. -/
theorem C7_save_ignores_secrets_witness :
    SaveSessions cmWitness
      [("w", ⟨"w", some ⟨"w", some 42, "seed words"⟩, 0, 3, 100, "t", true⟩)] 0 =
    SaveSessions cmWitness
      [("w", ⟨"w", some ⟨"w", some 99, "other words"⟩, 0, 3, 100, "t", true⟩)] 0 :=
  C7_save_ignores_secrets cmWitness 0
    [("w", ⟨"w", some ⟨"w", some 42, "seed words"⟩, 0, 3, 100, "t", true⟩)]
    [("w", ⟨"w", some ⟨"w", some 99, "other words"⟩, 0, 3, 100, "t", true⟩)]
    (by decide)

end VeWallet
